import Mathlib

/-!
Verification development for the campaign/IVR prompt association app
(`streamlit_app.py`).  The core logic is embedded shallowly:

* Python strings are modelled as `List Char` (`Str`);
* `pandas` cells are `Option Str` (`none` models `NaN`);
* a `pandas` `DataFrame` is a list of rows, each row an association list
  from column name to cell; accessing a missing column is a `KeyError`,
  modelled with `Except`;
* the Python `dict` is an insertion-ordered association list with
  insert-or-overwrite (`dinsert`) and lookup (`dget`).
-/

namespace IVRApp

/-- Python strings, modelled as lists of characters. -/
abbrev Str := List Char

/-- The literal substring `".five9ivr"` removed by the normalizer. -/
def five9 : Str := ['.', 'f', 'i', 'v', 'e', '9', 'i', 'v', 'r']

/-- Python `name.replace('.five9ivr', '')`: left-to-right removal of every
non-overlapping occurrence of `".five9ivr"`. -/
def replaceFive9 : Str → Str
  | '.' :: 'f' :: 'i' :: 'v' :: 'e' :: '9' :: 'i' :: 'v' :: 'r' :: rest =>
      replaceFive9 rest
  | c :: rest => c :: replaceFive9 rest
  | [] => []

/-- The ASCII whitespace characters stripped by Python `str.strip()`. -/
def isSpacePy (c : Char) : Bool := c == ' ' || (9 ≤ c.toNat && c.toNat ≤ 13)

/-- Python `s.strip()`: drop leading and trailing whitespace. -/
def pyStrip (s : Str) : Str :=
  ((s.dropWhile isSpacePy).reverse.dropWhile isSpacePy).reverse

/-- `normalize_ivr_name` from `streamlit_app.py`:
`name.replace('.five9ivr', '').strip()`. -/
def normalize_ivr_name (name : Str) : Str := pyStrip (replaceFive9 name)

/-- Whether `".five9ivr"` occurs as a substring (used to state the provisos
of the normalizer laws). -/
def hasFive9 : Str → Bool
  | [] => false
  | c :: rest => five9.isPrefixOf (c :: rest) || hasFive9 rest

/-- A Python `dict` with `Str` keys and values: an association list with
unique keys, insertion order preserved. -/
abbrev Dict := List (Str × Str)

/-- `d[k] = v` on a Python dict: overwrite in place or append at the end. -/
def dinsert (k v : Str) : Dict → Dict
  | [] => [(k, v)]
  | (k', v') :: rest =>
      if k' = k then (k, v) :: rest else (k', v') :: dinsert k v rest

/-- `d.get(k)` on a Python dict. -/
def dget (k : Str) : Dict → Option Str
  | [] => none
  | (k', v') :: rest => if k' = k then some v' else dget k rest

/-- Python `a or b` on strings: `a` if non-empty, otherwise `b`. -/
def pyOr (a b : Str) : Str := if a = [] then b else a

/-- One row of the campaign (IVR-details) source, at the record level used
by §4.2 of the spec: the two relevant cells, each possibly null. -/
structure CampaignRecord where
  ivrName : Option Str
  associatedCampaigns : Option Str
deriving DecidableEq, Repr

/-- One loop iteration of `create_campaign_mapping`: skip the record when
either cell is null, otherwise insert the normalized base key and the
re-suffixed key, in that order. -/
def addCampaignRow (m : Dict) (r : CampaignRecord) : Dict :=
  match r.ivrName, r.associatedCampaigns with
  | some n, some c =>
      let base := normalize_ivr_name n
      dinsert (base ++ five9) c (dinsert base c m)
  | _, _ => m

/-- `create_campaign_mapping` from `streamlit_app.py`, at the record level:
fold the per-row insertion over the ordered sequence of campaign records,
starting from the empty dict. -/
def create_campaign_mapping (records : List CampaignRecord) : Dict :=
  records.foldl addCampaignRow []

/-- A `pandas` cell: `none` models `NaN` (a value `pd.notna` rejects). -/
abbrev Cell := Option Str

/-- One `DataFrame` row: cells indexed by column name. -/
abbrev Row := List (String × Cell)

/-- A `DataFrame`: its rows in order. -/
abbrev Table := List Row

/-- `row[c]` on a `DataFrame` row: `KeyError` when the column is absent. -/
def getCol (row : Row) (c : String) : Except String Cell :=
  match row.lookup c with
  | some v => Except.ok v
  | none => Except.error ("KeyError: " ++ c)

/-- One loop iteration of `create_campaign_mapping` at the `DataFrame`
level, with the column accesses and their short-circuit order made
explicit: `row['IVR name']` is always read; `row['Associated campaign(s)']`
is read only when the first cell is non-null (Python `and` short-circuits). -/
def addCampaignRowT (m : Dict) (row : Row) : Except String Dict := do
  let nCell ← getCol row "IVR name"
  match nCell with
  | none => pure m
  | some n => do
    let cCell ← getCol row "Associated campaign(s)"
    match cCell with
    | none => pure m
    | some c =>
      let base := normalize_ivr_name n
      pure (dinsert (base ++ five9) c (dinsert base c m))

/-- `create_campaign_mapping` at the `DataFrame` level. -/
def create_campaign_mapping_t (t : Table) : Except String Dict :=
  t.foldlM addCampaignRowT []

/-- One output row of `process_files`: the prompt's IVR name (a string —
a null cell would already have crashed `normalize_ivr_name`), the prompt
name cell verbatim, and the campaign cell the join produced. -/
structure MappingResult where
  ivrName : Str
  promptName : Cell
  associatedCampaigns : Cell
deriving DecidableEq, Repr

/-- The campaign-resolution expression of `process_files` (line 32):
`ivr_campaign_map.get(ivr_name, '') or ivr_campaign_map.get(base_ivr_name, '')`. -/
def resolveCampaign (m : Dict) (raw : Str) : Str :=
  pyOr ((dget raw m).getD []) ((dget (normalize_ivr_name raw) m).getD [])

/-- One loop iteration of `process_files` over the prompts table:
read `row['IVR Name']` (a null cell makes `normalize_ivr_name(nan)` raise
`AttributeError`), then `row['Prompt Name']`, then emit the result row. -/
def processPromptRowT (m : Dict) (row : Row) : Except String MappingResult := do
  let iCell ← getCol row "IVR Name"
  match iCell with
  | none => Except.error "AttributeError: float object has no attribute replace"
  | some ivr => do
    let pCell ← getCol row "Prompt Name"
    pure { ivrName := ivr
           promptName := pCell
           associatedCampaigns := some (resolveCampaign m ivr) }

/-- `process_files` from `streamlit_app.py`: build the campaign index,
then map every prompt row to a result row; any `KeyError` or
`AttributeError` aborts the whole transform with no partial output. -/
def process_files (ct pt : Table) : Except String (List MappingResult) := do
  let m ← create_campaign_mapping_t ct
  pt.mapM (processPromptRowT m)

/-- `total_prompts = len(result_df)`. -/
def total_prompts (rs : List MappingResult) : Nat := rs.length

/-- `mapped_prompts = result_df['Associated Campaigns'].notna().sum()`. -/
def mapped_prompts (rs : List MappingResult) : Nat :=
  rs.countP (fun r => r.associatedCampaigns.isSome)

/-- `unmapped_prompts = total_prompts - mapped_prompts`. -/
def unmapped_prompts (rs : List MappingResult) : Nat :=
  total_prompts rs - mapped_prompts rs

/-! ### Dictionary lemmas -/

theorem dget_dinsert (k k' v : Str) (m : Dict) :
    dget k (dinsert k' v m) = if k' = k then some v else dget k m := by
  induction m with
  | nil => simp [dinsert, dget]
  | cons p rest ih =>
    obtain ⟨k2, v2⟩ := p
    by_cases h1 : k2 = k'
    · subst h1
      by_cases h2 : k2 = k <;> simp [dinsert, dget, h2]
    · by_cases h2 : k2 = k
      · subst h2
        have hk : ¬ k' = k2 := fun h => h1 h.symm
        simp [dinsert, dget, h1, hk, ih]
      · simp [dinsert, dget, h1, h2, ih]

theorem length_dinsert (k v : Str) (m : Dict) :
    (dinsert k v m).length ≤ m.length + 1 := by
  induction m with
  | nil => simp [dinsert]
  | cons p rest ih =>
    obtain ⟨k2, v2⟩ := p
    by_cases h : k2 = k
    · simp [dinsert, h]
    · simp only [dinsert, if_neg h, List.length_cons]
      omega

/-! ### Characterizing the index built by `create_campaign_mapping`

`hitVal k r` is the value record `r` writes to key `k` (if any): a valid
record with base `b` writes to exactly the keys `b` and `b ++ ".five9ivr"`.
The fold lemma says a `dget` on the finished index returns the value of
the last record that wrote to the key. -/

def hitVal (k : Str) (r : CampaignRecord) : Option Str :=
  match r.ivrName, r.associatedCampaigns with
  | some n, some c =>
      if normalize_ivr_name n = k ∨ normalize_ivr_name n ++ five9 = k then some c else none
  | _, _ => none

theorem dget_addCampaignRow (k : Str) (m : Dict) (r : CampaignRecord) :
    dget k (addCampaignRow m r) =
      match hitVal k r with
      | some c => some c
      | none => dget k m := by
  obtain ⟨n?, c?⟩ := r
  match n?, c? with
  | none, none => rfl
  | none, some c => rfl
  | some n, none => rfl
  | some n, some c =>
    simp only [addCampaignRow, hitVal]
    rw [dget_dinsert, dget_dinsert]
    by_cases h1 : normalize_ivr_name n ++ five9 = k
    · simp [h1]
    · by_cases h2 : normalize_ivr_name n = k <;> simp [h1, h2]

theorem dget_foldl (records : List CampaignRecord) (m : Dict) (k : Str) :
    dget k (records.foldl addCampaignRow m) =
      records.foldl
        (fun acc r => match hitVal k r with | some c => some c | none => acc)
        (dget k m) := by
  induction records generalizing m with
  | nil => rfl
  | cons r rest ih =>
    simp only [List.foldl_cons]
    rw [ih, dget_addCampaignRow]

theorem foldl_hit_none (k : Str) (records : List CampaignRecord)
    (acc : Option Str) (h : ∀ r ∈ records, hitVal k r = none) :
    records.foldl
        (fun acc r => match hitVal k r with | some c => some c | none => acc)
        acc = acc := by
  induction records generalizing acc with
  | nil => rfl
  | cons r rest ih =>
    have hr : hitVal k r = none := h r (by simp)
    simp only [List.foldl_cons, hr]
    exact ih acc (fun r' hr' => h r' (by simp [hr']))

/-! ### The normalizer: rewrite rules for `replaceFive9` -/

theorem replace_nil : replaceFive9 [] = [] := rfl

theorem replace_five9_append (rest : Str) :
    replaceFive9 (five9 ++ rest) = replaceFive9 rest := rfl

theorem replace_cons_ne (c : Char) (rest : Str) (h : ¬ five9 <+: (c :: rest)) :
    replaceFive9 (c :: rest) = c :: replaceFive9 rest := by
  apply replaceFive9.eq_2
  intro rest' hc hrest
  exact h ⟨rest', by rw [hc, hrest]; rfl⟩

theorem hasFive9_cons (c : Char) (rest : Str) :
    hasFive9 (c :: rest) = (five9.isPrefixOf (c :: rest) || hasFive9 rest) := rfl

theorem not_prefix_of_hasFive9_false (s : Str) (h : hasFive9 s = false) :
    ¬ five9 <+: s := by
  cases s with
  | nil => intro hp; have := hp.length_le; simp [five9] at this
  | cons c rest =>
    rw [hasFive9_cons, Bool.or_eq_false_iff] at h
    intro hp
    rw [← List.isPrefixOf_iff_prefix] at hp
    simp [h.1] at hp

theorem replace_id (s : Str) (h : hasFive9 s = false) : replaceFive9 s = s := by
  induction s with
  | nil => rfl
  | cons c rest ih =>
    have h' : hasFive9 rest = false := by
      rw [hasFive9_cons, Bool.or_eq_false_iff] at h; exact h.2
    rw [replace_cons_ne c rest (not_prefix_of_hasFive9_false _ h), ih h']

theorem hasFive9_append_five9 (x : Str) : hasFive9 (x ++ five9) = true := by
  induction x with
  | nil => decide
  | cons c rest ih => rw [List.cons_append, hasFive9_cons, ih, Bool.or_true]

theorem not_prefix_short (y : Str) (hne : y ≠ []) (hlt : y.length < 9) :
    ¬ five9 <+: (y ++ five9) := by
  intro h
  have h9 : five9.length = 9 := by decide
  have heq : five9 = (y ++ five9).take 9 := by
    have := List.prefix_iff_eq_take.mp h
    rwa [h9] at this
  rw [List.take_append_eq_append_take, List.take_of_length_le (by omega)] at heq
  have hpos : 0 < y.length := List.length_pos.mpr hne
  have hy : y = List.take y.length five9 := by
    have h2 := congrArg (List.take y.length) heq
    rw [List.take_left' rfl] at h2
    exact h2.symm
  set n := y.length with hn
  clear_value n
  rw [hy] at heq
  interval_cases n <;> exact absurd heq (by decide)

theorem prefix_through_append (y z : Str) (hlen : 9 ≤ y.length)
    (h : five9 <+: (y ++ z)) : five9 <+: y := by
  have h9 : five9.length = 9 := by decide
  exact List.prefix_of_prefix_length_le h (List.prefix_append y z) (by omega)

theorem replace_append_five9 (x : Str) (h : hasFive9 x = false) :
    replaceFive9 (x ++ five9) = x := by
  induction x with
  | nil => rfl
  | cons c rest ih =>
    have hsplit : five9.isPrefixOf (c :: rest) = false ∧ hasFive9 rest = false := by
      rw [hasFive9_cons, Bool.or_eq_false_iff] at h; exact h
    have hnp : ¬ five9 <+: ((c :: rest) ++ five9) := by
      by_cases hlen : 9 ≤ (c :: rest).length
      · intro hp
        have := prefix_through_append _ _ hlen hp
        rw [← List.isPrefixOf_iff_prefix] at this
        simp [hsplit.1] at this
      · exact not_prefix_short (c :: rest) (by simp) (by omega)
    rw [List.cons_append] at hnp ⊢
    rw [replace_cons_ne c (rest ++ five9) hnp, ih hsplit.2]

/-! ### `pyStrip` lemmas -/

theorem dropWhile_head?_false (p : Char → Bool) (l : Str) (a : Char)
    (h : (l.dropWhile p).head? = some a) : p a = false := by
  induction l with
  | nil => simp [List.dropWhile] at h
  | cons c rest ih =>
    by_cases pc : p c
    · rw [List.dropWhile_cons, if_pos pc] at h
      exact ih h
    · rw [List.dropWhile_cons, if_neg pc] at h
      simp at h
      subst h
      simpa using pc

theorem dropWhile_self (p : Char → Bool) (l : Str) :
    (l.dropWhile p).dropWhile p = l.dropWhile p := by
  cases h : l.dropWhile p with
  | nil => rfl
  | cons a t =>
    have ha : p a = false := dropWhile_head?_false p l a (by rw [h]; rfl)
    rw [List.dropWhile_cons, if_neg (by simp [ha])]

theorem pyStrip_head?_not_space (s : Str) (a : Char)
    (h : (pyStrip s).head? = some a) : isSpacePy a = false := by
  unfold pyStrip at h
  rw [List.head?_reverse] at h
  obtain ⟨pre, hpre⟩ :=
    List.dropWhile_suffix (l := (s.dropWhile isSpacePy).reverse) isSpacePy
  have h2 : ((s.dropWhile isSpacePy).reverse).getLast? = some a := by
    rw [← hpre, List.getLast?_append, h]
    rfl
  rw [List.getLast?_reverse] at h2
  exact dropWhile_head?_false isSpacePy s a h2

theorem pyStrip_idem (s : Str) : pyStrip (pyStrip s) = pyStrip s := by
  cases hh : (pyStrip s).head? with
  | none =>
    have : pyStrip s = [] := by
      cases hps : pyStrip s with
      | nil => rfl
      | cons a t => rw [hps] at hh; simp at hh
    rw [this]; rfl
  | some a =>
    have ha : isSpacePy a = false := pyStrip_head?_not_space s a hh
    have h1 : (pyStrip s).dropWhile isSpacePy = pyStrip s := by
      cases hps : pyStrip s with
      | nil => rfl
      | cons b t =>
        rw [hps] at hh
        have hb : b = a := by simpa using hh
        rw [List.dropWhile_cons, if_neg (by rw [hb, ha]; simp)]
    show ((((pyStrip s).dropWhile isSpacePy).reverse).dropWhile isSpacePy).reverse = pyStrip s
    rw [h1]
    unfold pyStrip
    rw [List.reverse_reverse, dropWhile_self]

/-! ### The spec's description of the joiner's lookup (§4.3), for claim C1 -/

/-- The chained fallback exactly as the spec words it: attempt the raw-key
lookup; if it yields no value or an empty value, attempt the base-key
lookup; the result is the first non-empty value so obtained, and the empty
string if neither lookup yields one. -/
def chainedFallbackSpec (m : Dict) (raw : Str) : Str :=
  let second :=
    match dget (normalize_ivr_name raw) m with
    | some w => if w ≠ [] then w else []
    | none => []
  match dget raw m with
  | some v => if v ≠ [] then v else second
  | none => second

/-! ### Claim theorems -/

/-- **C1** (confirmed). For every index and every raw prompt IVR name, the
campaign the joiner computes (`resolveCampaign`, the expression
`map.get(raw, '') or map.get(base, '')` of `process_files`) equals the
spec's chained fallback: raw-key lookup first, base-key lookup whenever the
raw lookup yields no value or an empty (falsy) one, empty string when
neither yields a non-empty value.  In particular a raw key that is present
but mapped to the empty string still falls through to the base-key lookup. -/
theorem C1_joiner_chained_fallback (m : Dict) (raw : Str) :
    resolveCampaign m raw = chainedFallbackSpec m raw := by
  unfold resolveCampaign chainedFallbackSpec pyOr
  cases h1 : dget raw m with
  | none =>
    cases h2 : dget (normalize_ivr_name raw) m with
    | none => simp
    | some w => by_cases hw : w = [] <;> simp [hw]
  | some v =>
    cases h2 : dget (normalize_ivr_name raw) m with
    | none => by_cases hv : v = [] <;> simp [hv]
    | some w =>
      by_cases hv : v = [] <;> by_cases hw : w = [] <;> simp [hv, hw]

/-- **C5** (corrected): the normalizer is *not* idempotent on every string.
`replace` removes non-overlapping occurrences left to right, so removing
occurrences can splice a fresh occurrence together: for
`".five9.five9ivrivr"` one pass yields `".five9ivr"` and a second pass
yields `""`. -/
theorem C5_counterexample :
    normalize_ivr_name (normalize_ivr_name ".five9.five9ivrivr".toList) ≠
      normalize_ivr_name ".five9.five9ivrivr".toList := by decide

/-- **C5** (amended). The normalizer is idempotent on every string whose
normalization contains no further occurrence of `".five9ivr"` (the spec's
own proviso in §4.1). -/
theorem C5_normalize_idem (x : Str)
    (h : hasFive9 (normalize_ivr_name x) = false) :
    normalize_ivr_name (normalize_ivr_name x) = normalize_ivr_name x := by
  unfold normalize_ivr_name at h ⊢
  rw [replace_id _ h]
  exact pyStrip_idem _

/-- Witness for `C5_normalize_idem` at `x = "CampA.five9ivr"`. -/
theorem C5_normalize_idem_witness :
    hasFive9 (normalize_ivr_name "CampA.five9ivr".toList) = false ∧
      normalize_ivr_name (normalize_ivr_name "CampA.five9ivr".toList) =
        normalize_ivr_name "CampA.five9ivr".toList :=
  ⟨by decide, C5_normalize_idem "CampA.five9ivr".toList (by decide)⟩

/-- **C6** (confirmed). For every string `x` that does not contain the
substring `".five9ivr"`, appending the suffix does not change the
normalization: `normalize(x + ".five9ivr") = normalize(x)`.  (The pattern
`".five9ivr"` has no non-trivial period, so no occurrence can straddle the
boundary between `x` and the appended suffix.) -/
theorem C6_normalize_append_suffix (x : Str) (h : hasFive9 x = false) :
    normalize_ivr_name (x ++ five9) = normalize_ivr_name x := by
  unfold normalize_ivr_name
  rw [replace_append_five9 x h, replace_id x h]

/-- Witness for `C6_normalize_append_suffix` at `x = "CampA"`. -/
theorem C6_normalize_append_suffix_witness :
    hasFive9 "CampA".toList = false ∧
      normalize_ivr_name ("CampA".toList ++ five9) =
        normalize_ivr_name "CampA".toList :=
  ⟨by decide, C6_normalize_append_suffix "CampA".toList (by decide)⟩

/-! ### Builder lemmas shared by C3, C4, C7 -/

theorem length_addCampaignRow (m : Dict) (r : CampaignRecord) :
    (addCampaignRow m r).length ≤ m.length + 2 := by
  obtain ⟨n?, c?⟩ := r
  match n?, c? with
  | none, none => simp [addCampaignRow]
  | none, some c => simp [addCampaignRow]
  | some n, none => simp [addCampaignRow]
  | some n, some c =>
    simp only [addCampaignRow]
    have h1 := length_dinsert (normalize_ivr_name n) c m
    have h2 := length_dinsert (normalize_ivr_name n ++ five9) c
      (dinsert (normalize_ivr_name n) c m)
    omega

theorem addCampaignRow_skip (m : Dict) (r : CampaignRecord)
    (h : r.ivrName = none ∨ r.associatedCampaigns = none) :
    addCampaignRow m r = m := by
  obtain ⟨n?, c?⟩ := r
  rcases h with h | h <;> simp only at h <;> subst h
  · cases c? <;> rfl
  · cases n? <;> rfl

theorem length_foldl_addCampaignRow (records : List CampaignRecord) (m : Dict) :
    (records.foldl addCampaignRow m).length ≤
      m.length +
        2 * records.countP (fun r => r.ivrName.isSome && r.associatedCampaigns.isSome) := by
  induction records generalizing m with
  | nil => simp
  | cons r rest ih =>
    simp only [List.foldl_cons, List.countP_cons]
    have h1 := ih (addCampaignRow m r)
    by_cases hv : (r.ivrName.isSome && r.associatedCampaigns.isSome) = true
    · have h2 := length_addCampaignRow m r
      rw [if_pos hv]
      omega
    · have hskip : addCampaignRow m r = m := by
        apply addCampaignRow_skip
        obtain ⟨n?, c?⟩ := r
        cases n? <;> cases c? <;> simp_all
      rw [hskip] at h1
      rw [hskip, if_neg hv]
      omega

theorem foldl_hit_isSome (k : Str) (records : List CampaignRecord)
    (acc : Option Str) (h : ∃ r ∈ records, hitVal k r ≠ none) :
    (records.foldl
        (fun acc r => match hitVal k r with | some c => some c | none => acc)
        acc).isSome = true := by
  induction records generalizing acc with
  | nil =>
    obtain ⟨r, hr, _⟩ := h
    simp at hr
  | cons r rest ih =>
    simp only [List.foldl_cons]
    by_cases hrest : ∃ r' ∈ rest, hitVal k r' ≠ none
    · exact ih _ hrest
    · obtain ⟨r0, hr0, hne⟩ := h
      rcases List.mem_cons.mp hr0 with rfl | hmem
      · cases hv : hitVal k r0 with
        | none => exact absurd hv hne
        | some c =>
          simp only [hv]
          rw [foldl_hit_none k rest (some c)]
          · rfl
          · intro r' hr'
            by_contra hh
            exact hrest ⟨r', hr', hh⟩
      · exact absurd ⟨r0, hmem, hne⟩ hrest

/-- For a record whose base contains no `".five9ivr"`, and a key `k` that
contains none either, the record writes to `k ++ ".five9ivr"` exactly when
it writes to `k` (with the same value). -/
theorem hitVal_suffixed (k : Str) (hk : hasFive9 k = false)
    (r : CampaignRecord)
    (hfree : ∀ n c, r.ivrName = some n → r.associatedCampaigns = some c →
      hasFive9 (normalize_ivr_name n) = false) :
    hitVal (k ++ five9) r = hitVal k r := by
  obtain ⟨n?, c?⟩ := r
  match n?, c? with
  | none, none => rfl
  | none, some c => rfl
  | some n, none => rfl
  | some n, some c =>
    have hb : hasFive9 (normalize_ivr_name n) = false := hfree n c rfl rfl
    simp only [hitVal]
    have h1 : normalize_ivr_name n ≠ k ++ five9 := by
      intro h
      rw [h, hasFive9_append_five9] at hb
      exact Bool.true_eq_false.mp hb
    have h2 : normalize_ivr_name n ++ five9 ≠ k := by
      intro h
      rw [← h, hasFive9_append_five9] at hk
      exact Bool.true_eq_false.mp hk
    by_cases h3 : normalize_ivr_name n = k
    · simp [h3]
    · have h4 : normalize_ivr_name n ++ five9 ≠ k ++ five9 := by
        intro h
        exact h3 (List.append_cancel_right h)
      simp [h1, h2, h3, h4]

/-- **C3** (confirmed). The mapping builder: (i) a record with a null IVR
name or a null campaign cell is skipped and changes nothing; (ii) a valid
record updates exactly the two keys `normalize(ivrName)` and
`normalize(ivrName) + ".five9ivr"`, both to its campaign value, leaving
every other key unchanged; (iii) one iteration grows the dict by at most
two entries; (iv) hence the finished index has at most
`2 * numberOfValidRecords` entries. -/
theorem C3_builder_skip_insert_size :
    (∀ (m : Dict) (r : CampaignRecord),
        r.ivrName = none ∨ r.associatedCampaigns = none → addCampaignRow m r = m) ∧
    (∀ (m : Dict) (r : CampaignRecord) (n c : Str),
        r.ivrName = some n → r.associatedCampaigns = some c → ∀ k,
        dget k (addCampaignRow m r) =
          if normalize_ivr_name n = k ∨ normalize_ivr_name n ++ five9 = k
          then some c else dget k m) ∧
    (∀ (m : Dict) (r : CampaignRecord), (addCampaignRow m r).length ≤ m.length + 2) ∧
    (∀ records : List CampaignRecord,
        (create_campaign_mapping records).length ≤
          2 * records.countP (fun r => r.ivrName.isSome && r.associatedCampaigns.isSome)) := by
  refine ⟨addCampaignRow_skip, ?_, length_addCampaignRow, ?_⟩
  · intro m r n c hn hc k
    rw [dget_addCampaignRow]
    simp only [hitVal, hn, hc]
    by_cases h : normalize_ivr_name n = k ∨ normalize_ivr_name n ++ five9 = k <;> simp [h]
  · intro records
    simpa using length_foldl_addCampaignRow records []

/-- Witness for `C3_builder_skip_insert_size`: a null-campaign record is
skipped, and a valid record makes both its keys point at its value. -/
theorem C3_builder_skip_insert_size_witness :
    addCampaignRow [] ⟨some "CampA".toList, none⟩ = [] ∧
      dget "CampA".toList (addCampaignRow [] ⟨some "CampA".toList, some "X".toList⟩) =
        some "X".toList := by
  constructor
  · exact C3_builder_skip_insert_size.1 [] ⟨some "CampA".toList, none⟩ (Or.inr rfl)
  · rw [C3_builder_skip_insert_size.2.1 [] ⟨some "CampA".toList, some "X".toList⟩
      "CampA".toList "X".toList rfl rfl "CampA".toList]
    decide

/-- **C4** (corrected): as stated the claim is false.  Normalizing can
leave a `".five9ivr"` inside the base (`replace` splices one together from
`".five9.five9ivrivr"`), and a later record (here with IVR name `""`) can
then overwrite the un-suffixed key while the suffixed key keeps the old
value: the two keys end up mapped to different values. -/
theorem C4_counterexample :
    normalize_ivr_name ".five9.five9ivrivr".toList = ".five9ivr".toList ∧
      dget ".five9ivr".toList
        (create_campaign_mapping
          [⟨some ".five9.five9ivrivr".toList, some "a".toList⟩,
           ⟨some "".toList, some "b".toList⟩]) = some "b".toList ∧
      dget (".five9ivr".toList ++ five9)
        (create_campaign_mapping
          [⟨some ".five9.five9ivrivr".toList, some "a".toList⟩,
           ⟨some "".toList, some "b".toList⟩]) = some "a".toList ∧
      "b".toList ≠ "a".toList := by decide

/-- **C4** (amended). Provided no valid record's normalized name still
contains `".five9ivr"`, the finished index maps `k` and `k + ".five9ivr"`
to the same value (and contains both) whenever some valid record
normalizes to `k`. -/
theorem C4_paired_keys (records : List CampaignRecord) (k : Str)
    (hfree : ∀ r ∈ records, ∀ n c, r.ivrName = some n →
      r.associatedCampaigns = some c → hasFive9 (normalize_ivr_name n) = false)
    (hkey : ∃ r ∈ records, ∃ n c, r.ivrName = some n ∧
      r.associatedCampaigns = some c ∧ normalize_ivr_name n = k) :
    ∃ v, dget k (create_campaign_mapping records) = some v ∧
      dget (k ++ five9) (create_campaign_mapping records) = some v := by
  obtain ⟨r0, hr0, n0, c0, hn0, hc0, hk0⟩ := hkey
  have hkfree : hasFive9 k = false := hk0 ▸ hfree r0 hr0 n0 c0 hn0 hc0
  unfold create_campaign_mapping
  rw [dget_foldl, dget_foldl]
  have e2 :
      records.foldl
        (fun acc r => match hitVal (k ++ five9) r with | some c => some c | none => acc)
        (dget (k ++ five9) []) =
      records.foldl
        (fun acc r => match hitVal k r with | some c => some c | none => acc)
        (dget k []) := by
    exact List.foldl_ext _ _ _
      (fun acc r hr => by rw [hitVal_suffixed k hkfree r (hfree r hr)])
  rw [e2]
  have hsome := foldl_hit_isSome k records (dget k [])
    ⟨r0, hr0, by simp [hitVal, hn0, hc0, hk0]⟩
  obtain ⟨v, hv⟩ := Option.isSome_iff_exists.mp hsome
  exact ⟨v, hv, hv⟩

/-- Witness for `C4_paired_keys` at a single valid record. -/
theorem C4_paired_keys_witness :
    ∃ v, dget "CampA".toList
        (create_campaign_mapping [⟨some "CampA.five9ivr".toList, some "X".toList⟩]) =
          some v ∧
      dget ("CampA".toList ++ five9)
        (create_campaign_mapping [⟨some "CampA.five9ivr".toList, some "X".toList⟩]) =
          some v := by
  apply C4_paired_keys
  · intro r hr n c hn hc
    simp only [List.mem_singleton] at hr
    subst hr
    simp only at hn
    injection hn with hn
    subst hn
    decide
  · exact ⟨⟨some "CampA.five9ivr".toList, some "X".toList⟩, by simp,
      "CampA.five9ivr".toList, "X".toList, rfl, rfl, by decide⟩

/-- **C7** (corrected): as stated the claim is false.  Records 1 and 2 both
normalize to `".five9ivr"`; the later of them carries `"c"`, yet the
finished index maps that base key to `"b"`, written by record 3 whose base
`""` re-suffixes to exactly this key. -/
theorem C7_counterexample :
    normalize_ivr_name ".five9.five9ivrivr".toList = ".five9ivr".toList ∧
      dget ".five9ivr".toList
        (create_campaign_mapping
          [⟨some ".five9.five9ivrivr".toList, some "a".toList⟩,
           ⟨some ".five9.five9ivrivr".toList, some "c".toList⟩,
           ⟨some "".toList, some "b".toList⟩]) = some "b".toList ∧
      "b".toList ≠ "c".toList := by decide

/-- **C7** (amended). Provided no valid record's normalized name still
contains `".five9ivr"`: whenever a valid record `r` normalizes to `k` and
no later valid record normalizes to `k`, the finished index maps both `k`
and `k + ".five9ivr"` to `r`'s campaign value — last write wins, covering
in particular the claim's case of two or more records sharing a base.  (No
error is raised: the builder is a total function.) -/
theorem C7_last_write_wins (records pre post : List CampaignRecord)
    (r : CampaignRecord) (n c k : Str)
    (hsplit : records = pre ++ r :: post)
    (hn : r.ivrName = some n) (hc : r.associatedCampaigns = some c)
    (hk : normalize_ivr_name n = k)
    (hfree : ∀ r' ∈ records, ∀ n' c', r'.ivrName = some n' →
      r'.associatedCampaigns = some c' → hasFive9 (normalize_ivr_name n') = false)
    (hlast : ∀ r' ∈ post, ∀ n' c', r'.ivrName = some n' →
      r'.associatedCampaigns = some c' → normalize_ivr_name n' ≠ k) :
    dget k (create_campaign_mapping records) = some c ∧
      dget (k ++ five9) (create_campaign_mapping records) = some c := by
  have hrmem : r ∈ records := by rw [hsplit]; exact List.mem_append_right _ (by simp)
  have hkfree : hasFive9 k = false := hk ▸ hfree r hrmem n c hn hc
  have hpost_none : ∀ r' ∈ post, hitVal k r' = none := by
    intro r' hr'
    have hr'mem : r' ∈ records := by
      rw [hsplit]; exact List.mem_append_right _ (by simp [hr'])
    obtain ⟨n?, c?⟩ := r'
    match hm : n?, hm2 : c? with
    | none, none => rfl
    | none, some c' => rfl
    | some n', none => rfl
    | some n', some c' =>
      simp only [hitVal]
      have hne1 : normalize_ivr_name n' ≠ k := hlast _ hr' n' c' rfl rfl
      have hb : hasFive9 (normalize_ivr_name n') = false :=
        hfree _ hr'mem n' c' rfl rfl
      have hne2 : normalize_ivr_name n' ++ five9 ≠ k := by
        intro h
        rw [← h, hasFive9_append_five9] at hkfree
        exact Bool.true_eq_false.mp hkfree
      simp [hne1, hne2]
  have hpost_none' : ∀ r' ∈ post, hitVal (k ++ five9) r' = none := by
    intro r' hr'
    have hr'mem : r' ∈ records := by
      rw [hsplit]; exact List.mem_append_right _ (by simp [hr'])
    rw [hitVal_suffixed k hkfree r' (hfree r' hr'mem)]
    exact hpost_none r' hr'
  have hhit : hitVal k r = some c := by simp [hitVal, hn, hc, hk]
  have hhit' : hitVal (k ++ five9) r = some c := by
    rw [hitVal_suffixed k hkfree r (hfree r hrmem)]
    exact hhit
  constructor
  · unfold create_campaign_mapping
    rw [hsplit, dget_foldl, List.foldl_append, List.foldl_cons, hhit]
    exact foldl_hit_none k post (some c) hpost_none
  · unfold create_campaign_mapping
    rw [hsplit, dget_foldl, List.foldl_append, List.foldl_cons, hhit']
    exact foldl_hit_none (k ++ five9) post (some c) hpost_none'

/-- Witness for `C7_last_write_wins`: the spec's Scenario B.  Records
`("CampA","X")` and `("CampA.five9ivr","Z")` both normalize to `"CampA"`;
the index ends with `"Z"` under both keys. -/
theorem C7_last_write_wins_witness :
    dget "CampA".toList
        (create_campaign_mapping
          [⟨some "CampA".toList, some "X".toList⟩,
           ⟨some "CampA.five9ivr".toList, some "Z".toList⟩]) = some "Z".toList ∧
      dget ("CampA".toList ++ five9)
        (create_campaign_mapping
          [⟨some "CampA".toList, some "X".toList⟩,
           ⟨some "CampA.five9ivr".toList, some "Z".toList⟩]) = some "Z".toList := by
  apply C7_last_write_wins _
    [⟨some "CampA".toList, some "X".toList⟩]
    []
    ⟨some "CampA.five9ivr".toList, some "Z".toList⟩
    "CampA.five9ivr".toList "Z".toList "CampA".toList
    rfl rfl rfl (by decide)
  · intro r' hr' n' c' hn' hc'
    simp only [List.mem_append, List.mem_cons, List.not_mem_nil, or_false] at hr'
    rcases hr' with rfl | rfl
    · simp only at hn'
      injection hn' with hn'
      subst hn'
      decide
    · simp only at hn'
      injection hn' with hn'
      subst hn'
      decide
  · intro r' hr'
    simp at hr'

/-! ### Table-level lemmas for the joiner (C8, C9, C10, C2) -/

/-- Column `c` is missing from table `t`: no row carries it. -/
def missingCol (t : Table) (c : String) : Prop :=
  ∀ row ∈ t, row.lookup c = none

theorem addCampaignRowT_ok (m : Dict) (row : Row)
    (h1 : (row.lookup "IVR name").isSome = true)
    (h2 : (row.lookup "Associated campaign(s)").isSome = true) :
    ∃ m', addCampaignRowT m row = Except.ok m' := by
  obtain ⟨v1, hv1⟩ := Option.isSome_iff_exists.mp h1
  obtain ⟨v2, hv2⟩ := Option.isSome_iff_exists.mp h2
  unfold addCampaignRowT getCol
  rw [hv1]
  cases v1 with
  | none => exact ⟨m, rfl⟩
  | some n =>
    rw [hv2]
    cases v2 with
    | none => exact ⟨m, rfl⟩
    | some c => exact ⟨_, rfl⟩

theorem create_t_ok (ct : Table)
    (h : ∀ row ∈ ct, (row.lookup "IVR name").isSome = true ∧
      (row.lookup "Associated campaign(s)").isSome = true) :
    ∃ m, create_campaign_mapping_t ct = Except.ok m := by
  unfold create_campaign_mapping_t
  suffices hgen : ∀ init : Dict, ∃ m, ct.foldlM addCampaignRowT init = Except.ok m from
    hgen []
  induction ct with
  | nil => exact fun init => ⟨init, rfl⟩
  | cons row rest ih =>
    intro init
    obtain ⟨h1, h2⟩ := h row (by simp)
    obtain ⟨m1, hm1⟩ := addCampaignRowT_ok init row h1 h2
    obtain ⟨m2, hm2⟩ := (ih (fun r hr => h r (by simp [hr]))) m1
    refine ⟨m2, ?_⟩
    rw [List.foldlM_cons, hm1]
    exact hm2

theorem processPromptRowT_ok (m : Dict) (row : Row) (s p : Str)
    (h1 : row.lookup "IVR Name" = some (some s))
    (h2 : row.lookup "Prompt Name" = some (some p)) :
    processPromptRowT m row =
      Except.ok ⟨s, some p, some (resolveCampaign m s)⟩ := by
  unfold processPromptRowT getCol
  rw [h1, h2]
  rfl

theorem mapM_prompts_ok (m : Dict) (pt : Table)
    (h : ∀ row ∈ pt, (∃ s, row.lookup "IVR Name" = some (some s)) ∧
      (∃ p, row.lookup "Prompt Name" = some (some p))) :
    ∃ rs, pt.mapM (processPromptRowT m) = Except.ok rs ∧
      rs.length = pt.length ∧
      List.Forall₂ (fun row res =>
        row.lookup "IVR Name" = some (some res.ivrName) ∧
        row.lookup "Prompt Name" = some res.promptName) pt rs := by
  induction pt with
  | nil => exact ⟨[], rfl, rfl, List.Forall₂.nil⟩
  | cons row rest ih =>
    obtain ⟨⟨s, hs⟩, ⟨p, hp⟩⟩ := h row (by simp)
    obtain ⟨rs, hrs, hlen, hfa⟩ := ih (fun r hr => h r (by simp [hr]))
    refine ⟨⟨s, some p, some (resolveCampaign m s)⟩ :: rs, ?_, by simp [hlen], ?_⟩
    · rw [List.mapM_cons, processPromptRowT_ok m row s p hs hp, hrs]
      rfl
    · exact List.Forall₂.cons ⟨hs, hp⟩ hfa

/-- **C8** (confirmed). For input tables that carry the required columns —
the campaign table's two cells present (possibly null, as §6 allows), the
prompt table's two cells present and string-valued as the spec's data
model states — the joiner succeeds and emits exactly one result row per
prompt row, in prompt-source order, with the prompt's IVR name and prompt
name preserved verbatim. -/
theorem C8_one_row_per_prompt (ct pt : Table)
    (hct : ∀ row ∈ ct, (row.lookup "IVR name").isSome = true ∧
      (row.lookup "Associated campaign(s)").isSome = true)
    (hpt : ∀ row ∈ pt, (∃ s, row.lookup "IVR Name" = some (some s)) ∧
      (∃ p, row.lookup "Prompt Name" = some (some p))) :
    ∃ rs, process_files ct pt = Except.ok rs ∧
      rs.length = pt.length ∧
      List.Forall₂ (fun row res =>
        row.lookup "IVR Name" = some (some res.ivrName) ∧
        row.lookup "Prompt Name" = some res.promptName) pt rs := by
  obtain ⟨m, hm⟩ := create_t_ok ct hct
  obtain ⟨rs, hrs, hlen, hfa⟩ := mapM_prompts_ok m pt hpt
  refine ⟨rs, ?_, hlen, hfa⟩
  unfold process_files
  rw [hm]
  exact hrs

/-- Witness for `C8_one_row_per_prompt` on a one-row pair of tables. -/
theorem C8_one_row_per_prompt_witness :
    ∃ rs, process_files
        [[("IVR name", some "CampA".toList), ("Associated campaign(s)", some "X".toList)]]
        [[("IVR Name", some "CampA".toList), ("Prompt Name", some "P1".toList)]] =
        Except.ok rs ∧
      rs.length = 1 ∧
      List.Forall₂ (fun row res =>
        row.lookup "IVR Name" = some (some res.ivrName) ∧
        row.lookup "Prompt Name" = some res.promptName)
        [[("IVR Name", some "CampA".toList), ("Prompt Name", some "P1".toList)]] rs := by
  apply C8_one_row_per_prompt
  · intro row hr
    simp only [List.mem_singleton] at hr
    subst hr
    exact ⟨rfl, rfl⟩
  · intro row hr
    simp only [List.mem_singleton] at hr
    subst hr
    exact ⟨⟨"CampA".toList, rfl⟩, ⟨"P1".toList, rfl⟩⟩

theorem processPromptRowT_campaigns_isSome (m : Dict) (row : Row)
    (res : MappingResult) (h : processPromptRowT m row = Except.ok res) :
    res.associatedCampaigns.isSome = true := by
  unfold processPromptRowT getCol at h
  cases h1 : row.lookup "IVR Name" with
  | none => rw [h1] at h; exact absurd h (by simp [Bind.bind, Except.bind])
  | some cell =>
    rw [h1] at h
    cases cell with
    | none => exact absurd h (by simp [Bind.bind, Except.bind])
    | some ivr =>
      cases h2 : row.lookup "Prompt Name" with
      | none => rw [h2] at h; exact absurd h (by simp [Bind.bind, Except.bind])
      | some pc =>
        rw [h2] at h
        have : Except.ok (ε := String)
            (⟨ivr, pc, some (resolveCampaign m ivr)⟩ : MappingResult) =
            Except.ok res := h
        cases this
        rfl

theorem mapM_prompts_all_isSome (m : Dict) (pt : Table)
    (rs : List MappingResult) (h : pt.mapM (processPromptRowT m) = Except.ok rs) :
    ∀ r ∈ rs, r.associatedCampaigns.isSome = true := by
  induction pt generalizing rs with
  | nil =>
    have : rs = [] := by
      simp only [List.mapM_nil] at h
      cases h
      rfl
    subst this
    intro r hr
    simp at hr
  | cons row rest ih =>
    rw [List.mapM_cons] at h
    cases hrow : processPromptRowT m row with
    | error e => rw [hrow] at h; exact absurd h (by simp [Bind.bind, Except.bind])
    | ok r0 =>
      rw [hrow] at h
      cases hrest : rest.mapM (processPromptRowT m) with
      | error e => rw [hrest] at h; exact absurd h (by simp [Bind.bind, Except.bind])
      | ok rs' =>
        rw [hrest] at h
        have : Except.ok (ε := String) (r0 :: rs') = Except.ok rs := h
        cases this
        intro r hr
        rcases List.mem_cons.mp hr with rfl | hmem
        · exact processPromptRowT_campaigns_isSome m row r hrow
        · exact ih rs' hrest r hmem

/-- **C10** (confirmed). Whenever the transform succeeds, every result
row's campaign cell is non-null (either a campaign value that passed the
builder's `notna` check — possibly the empty string — or the `''`
default), so the `notna`-based mapped count equals the total row count and
the computed unmapped count is zero, even when some rows carry an
empty-string campaign. -/
theorem C10_unmapped_always_zero (ct pt : Table) (rs : List MappingResult)
    (h : process_files ct pt = Except.ok rs) :
    (∀ r ∈ rs, r.associatedCampaigns.isSome = true) ∧
      mapped_prompts rs = total_prompts rs ∧ unmapped_prompts rs = 0 := by
  have hall : ∀ r ∈ rs, r.associatedCampaigns.isSome = true := by
    unfold process_files at h
    cases hcm : create_campaign_mapping_t ct with
    | error e => rw [hcm] at h; exact absurd h (by simp [Bind.bind, Except.bind])
    | ok m =>
      rw [hcm] at h
      exact mapM_prompts_all_isSome m pt rs h
  have hmap : mapped_prompts rs = total_prompts rs :=
    List.countP_eq_length.mpr hall
  exact ⟨hall, hmap, by unfold unmapped_prompts; omega⟩

/-- Witness for `C10_unmapped_always_zero`: a prompt with no matching
campaign still counts as "mapped", and unmapped is 0. -/
theorem C10_unmapped_always_zero_witness :
    (∀ r ∈ [(⟨"CampC".toList, some "P3".toList, some []⟩ : MappingResult)],
        r.associatedCampaigns.isSome = true) ∧
      mapped_prompts [⟨"CampC".toList, some "P3".toList, some []⟩] =
        total_prompts [⟨"CampC".toList, some "P3".toList, some []⟩] ∧
      unmapped_prompts [⟨"CampC".toList, some "P3".toList, some []⟩] = 0 :=
  C10_unmapped_always_zero []
    [[("IVR Name", some "CampC".toList), ("Prompt Name", some "P3".toList)]]
    [⟨"CampC".toList, some "P3".toList, some []⟩] rfl

/-! ### Error semantics (C9) -/

theorem create_t_error_of_missing_name (ct : Table) (row : Row)
    (rest : List Row) (hsplit : ct = row :: rest)
    (hm : missingCol ct "IVR name") :
    ∃ e, create_campaign_mapping_t ct = Except.error e := by
  subst hsplit
  have h0 : row.lookup "IVR name" = none := hm row (by simp)
  refine ⟨"KeyError: " ++ "IVR name", ?_⟩
  unfold create_campaign_mapping_t
  rw [List.foldlM_cons]
  have hstep : addCampaignRowT [] row = Except.error ("KeyError: " ++ "IVR name") := by
    unfold addCampaignRowT getCol
    rw [h0]
    rfl
  rw [hstep]
  rfl

theorem create_t_error_of_missing_assoc (ct : Table)
    (h1 : ∀ row ∈ ct, (row.lookup "IVR name").isSome = true)
    (hm : missingCol ct "Associated campaign(s)")
    (hx : ∃ row ∈ ct, ∃ s, row.lookup "IVR name" = some (some s)) :
    ∃ e, create_campaign_mapping_t ct = Except.error e := by
  unfold create_campaign_mapping_t
  suffices hgen : ∀ init : Dict, ∃ e, ct.foldlM addCampaignRowT init = Except.error e from
    hgen []
  induction ct with
  | nil =>
    obtain ⟨row, hmem, _⟩ := hx
    simp at hmem
  | cons row rest ih =>
    intro init
    obtain ⟨v1, hv1⟩ := Option.isSome_iff_exists.mp (h1 row (by simp))
    cases v1 with
    | none =>
      have hstep : addCampaignRowT init row = Except.ok init := by
        unfold addCampaignRowT getCol
        rw [hv1]
        rfl
      have hx' : ∃ r ∈ rest, ∃ s, r.lookup "IVR name" = some (some s) := by
        obtain ⟨r0, hmem, s, hs⟩ := hx
        rcases List.mem_cons.mp hmem with rfl | hmem'
        · rw [hv1] at hs; cases hs
        · exact ⟨r0, hmem', s, hs⟩
      obtain ⟨e, he⟩ := ih (fun r hr => h1 r (by simp [hr]))
        (fun r hr => hm r (by simp [hr])) hx' init
      refine ⟨e, ?_⟩
      rw [List.foldlM_cons, hstep]
      exact he
    | some s =>
      refine ⟨"KeyError: " ++ "Associated campaign(s)", ?_⟩
      rw [List.foldlM_cons]
      have hstep : addCampaignRowT init row =
          Except.error ("KeyError: " ++ "Associated campaign(s)") := by
        unfold addCampaignRowT getCol
        rw [hv1, hm row (by simp)]
        rfl
      rw [hstep]
      rfl

theorem processPromptRowT_error_of_missing_name (m : Dict) (row : Row)
    (hm : row.lookup "IVR Name" = none) :
    ∃ e, processPromptRowT m row = Except.error e := by
  refine ⟨"KeyError: " ++ "IVR Name", ?_⟩
  unfold processPromptRowT getCol
  rw [hm]
  rfl

theorem processPromptRowT_error_of_missing_prompt (m : Dict) (row : Row)
    (hm : row.lookup "Prompt Name" = none) :
    ∃ e, processPromptRowT m row = Except.error e := by
  unfold processPromptRowT getCol
  cases h1 : row.lookup "IVR Name" with
  | none => exact ⟨"KeyError: " ++ "IVR Name", rfl⟩
  | some cell =>
    cases cell with
    | none => exact ⟨"AttributeError: float object has no attribute replace", rfl⟩
    | some ivr =>
      rw [hm]
      exact ⟨"KeyError: " ++ "Prompt Name", rfl⟩

theorem mapM_error_of_head_error (m : Dict) (row : Row) (rest : List Row)
    (e : String) (h : processPromptRowT m row = Except.error e) :
    (row :: rest).mapM (processPromptRowT m) = Except.error e := by
  rw [List.mapM_cons, h]
  rfl

/-- **C9** (corrected; see `C9_counterexample`).  Missing required columns
abort the whole transform with a single error and no result rows, *when
the missing column is actually read*: (i) the campaign table missing
`IVR name` with at least one row; (ii) the campaign table having `IVR name`
but missing `Associated campaign(s)`, with at least one row whose
`IVR name` cell is non-null; (iii) the prompt table missing `IVR Name`
with at least one prompt row; (iv) the prompt table missing `Prompt Name`
with at least one prompt row.  Atomicity is structural: `process_files`
returns either a complete result list or an error, never both. -/
theorem C9_missing_column_errors (ct pt : Table) :
    (missingCol ct "IVR name" → ct ≠ [] →
      ∃ e, process_files ct pt = Except.error e) ∧
    ((∀ row ∈ ct, (row.lookup "IVR name").isSome = true) →
      missingCol ct "Associated campaign(s)" →
      (∃ row ∈ ct, ∃ s, row.lookup "IVR name" = some (some s)) →
      ∃ e, process_files ct pt = Except.error e) ∧
    (missingCol pt "IVR Name" → pt ≠ [] →
      ∃ e, process_files ct pt = Except.error e) ∧
    (missingCol pt "Prompt Name" → pt ≠ [] →
      ∃ e, process_files ct pt = Except.error e) := by
  refine ⟨?_, ?_, ?_, ?_⟩
  · intro hm hne
    cases hct : ct with
    | nil => exact absurd hct hne
    | cons row rest =>
      obtain ⟨e, he⟩ := create_t_error_of_missing_name ct row rest hct hm
      exact ⟨e, by unfold process_files; rw [← hct, he]; rfl⟩
  · intro h1 hm hx
    obtain ⟨e, he⟩ := create_t_error_of_missing_assoc ct h1 hm hx
    exact ⟨e, by unfold process_files; rw [he]; rfl⟩
  · intro hm hne
    cases pt with
    | nil => exact absurd rfl hne
    | cons row rest =>
      cases hcm : create_campaign_mapping_t ct with
      | error e => exact ⟨e, by unfold process_files; rw [hcm]; rfl⟩
      | ok m =>
        obtain ⟨e, he⟩ :=
          processPromptRowT_error_of_missing_name m row (hm row (by simp))
        refine ⟨e, ?_⟩
        unfold process_files
        rw [hcm]
        exact mapM_error_of_head_error m row rest e he
  · intro hm hne
    cases pt with
    | nil => exact absurd rfl hne
    | cons row rest =>
      cases hcm : create_campaign_mapping_t ct with
      | error e => exact ⟨e, by unfold process_files; rw [hcm]; rfl⟩
      | ok m =>
        obtain ⟨e, he⟩ :=
          processPromptRowT_error_of_missing_prompt m row (hm row (by simp))
        refine ⟨e, ?_⟩
        unfold process_files
        rw [hcm]
        exact mapM_error_of_head_error m row rest e he

/-- Witnesses for `C9_missing_column_errors`, one per conjunct, each on a
concrete one-row table missing the relevant column. -/
theorem C9_missing_column_errors_witness :
    (∃ e, process_files [[("x", (none : Cell))]] [] = Except.error e) ∧
      (∃ e, process_files [[("IVR name", some "A".toList)]] [] = Except.error e) ∧
      (∃ e, process_files [] [[("x", (none : Cell))]] = Except.error e) ∧
      (∃ e, process_files [] [[("IVR Name", some "A".toList)]] = Except.error e) := by
  refine ⟨?_, ?_, ?_, ?_⟩
  · exact (C9_missing_column_errors [[("x", (none : Cell))]] []).1
      (by intro row hr; simp only [List.mem_singleton] at hr; subst hr; rfl)
      (by simp)
  · exact (C9_missing_column_errors [[("IVR name", some "A".toList)]] []).2.1
      (by intro row hr; simp only [List.mem_singleton] at hr; subst hr; rfl)
      (by intro row hr; simp only [List.mem_singleton] at hr; subst hr; rfl)
      ⟨[("IVR name", some "A".toList)], by simp, "A".toList, rfl⟩
  · exact (C9_missing_column_errors [] [[("x", (none : Cell))]]).2.2.1
      (by intro row hr; simp only [List.mem_singleton] at hr; subst hr; rfl)
      (by simp)
  · exact (C9_missing_column_errors [] [[("IVR Name", some "A".toList)]]).2.2.2
      (by intro row hr; simp only [List.mem_singleton] at hr; subst hr; rfl)
      (by simp)

/-- **C9** (corrected): as stated the claim is false.  The code only
notices a missing column when a row access actually touches it: here the
campaign table has one row and is missing the required
`Associated campaign(s)` column, but because the row's `IVR name` cell is
null, the short-circuiting `and` never reads the missing column — the
transform succeeds and produces a (complete) result table instead of
failing. -/
theorem C9_counterexample :
    missingCol [[("IVR name", (none : Cell))]] "Associated campaign(s)" ∧
      process_files [[("IVR name", (none : Cell))]]
        [[("IVR Name", some "P".toList), ("Prompt Name", some "N".toList)]] =
        Except.ok [⟨"P".toList, some "N".toList, some []⟩] := by
  constructor
  · intro row hr
    simp only [List.mem_singleton] at hr
    subst hr
    rfl
  · rfl

/-! ### Scenario A and the statistics (C2) -/

/-- **C2** (code bug in the statistics).  On the spec's Scenario A the
transform produces exactly the three claimed result rows in order — but
the `notna`-based statistics count the empty-string campaign of `CampC`
as mapped, so the code computes `mapped = 3` and `unmapped = 0`, not the
`unmapped = 1` (naming `CampC`) that the claim and the
"Unmapped IVRs" report of `main` intend. -/
theorem C2_scenarioA_code_behavior :
    process_files
        [[("IVR name", some "CampA.five9ivr".toList),
          ("Associated campaign(s)", some "X".toList)],
         [("IVR name", some "CampB".toList),
          ("Associated campaign(s)", some "Y".toList)]]
        [[("IVR Name", some "CampA.five9ivr".toList),
          ("Prompt Name", some "P1".toList)],
         [("IVR Name", some "CampB.five9ivr".toList),
          ("Prompt Name", some "P2".toList)],
         [("IVR Name", some "CampC".toList),
          ("Prompt Name", some "P3".toList)]] =
      Except.ok
        [⟨"CampA.five9ivr".toList, some "P1".toList, some "X".toList⟩,
         ⟨"CampB.five9ivr".toList, some "P2".toList, some "Y".toList⟩,
         ⟨"CampC".toList, some "P3".toList, some []⟩] ∧
      total_prompts
        [⟨"CampA.five9ivr".toList, some "P1".toList, some "X".toList⟩,
         ⟨"CampB.five9ivr".toList, some "P2".toList, some "Y".toList⟩,
         ⟨"CampC".toList, some "P3".toList, some []⟩] = 3 ∧
      mapped_prompts
        [⟨"CampA.five9ivr".toList, some "P1".toList, some "X".toList⟩,
         ⟨"CampB.five9ivr".toList, some "P2".toList, some "Y".toList⟩,
         ⟨"CampC".toList, some "P3".toList, some []⟩] = 3 ∧
      unmapped_prompts
        [⟨"CampA.five9ivr".toList, some "P1".toList, some "X".toList⟩,
         ⟨"CampB.five9ivr".toList, some "P2".toList, some "Y".toList⟩,
         ⟨"CampC".toList, some "P3".toList, some []⟩] = 0 :=
  ⟨by rfl, by rfl, by rfl, by rfl⟩

end IVRApp
